import Mathlib

/-!
# A verification development for `go-http2-stuck-repro`

The repository consists of the vendored `http2.tryMutex` (a mutex built on a
buffered Go channel of capacity one) and a test harness (`repro_test.go`)
with an `infiniteReader` and an `echoHandler`.

The Go channel is embedded as a sequential state machine: a queue of buffered
elements, a capacity and a `closed` flag.  An operation of a goroutine is one
atomic step on that state; its outcome is `done` (the call returns), `blocked`
(the goroutine parks: the step is not enabled in this state) or `panicked`.
-/

namespace Http2

/-! ## Outcomes of a call -/

/-- The three ways a call on a channel can go: it returns a value, the calling
goroutine parks, or the runtime panics. -/
inductive Outcome (α : Type) where
  | done (a : α)
  | blocked
  | panicked
deriving DecidableEq, Repr

/-- Apply a function to the value a completed call returns. -/
def Outcome.map {α β : Type} (f : α → β) : Outcome α → Outcome β
  | .done a => .done (f a)
  | .blocked => .blocked
  | .panicked => .panicked

/-! ## Go channels of `struct{}` -/

/-- A Go channel `chan struct{}`: `dataqsiz` is the capacity given to `make`,
`buf` the buffered elements (oldest first), `closed` whether `close` was
called on it. -/
structure Chan where
  dataqsiz : Nat
  buf : List Unit
  closed : Bool
deriving DecidableEq, Repr

/-- The channel `make(chan struct{}, size)`. -/
def makechan (size : Nat) : Chan := ⟨size, [], false⟩

/-- The Go builtin `len(c)`: number of buffered elements. -/
def Chan.len (c : Chan) : Nat := c.buf.length

/-- The Go builtin `cap(c)`. -/
def Chan.cap (c : Chan) : Nat := c.dataqsiz

/-- The send `c <- ep`.  With `block = true` this is the send statement; with
`block = false` it is the send case of a `select` that has a `default`, and
the Boolean of the result says whether the send case was taken.
Sending on a closed channel panics; a send finds room iff fewer than
`dataqsiz` elements are buffered. -/
def chansend (c : Chan) (ep : Unit) (block : Bool) : Outcome (Bool × Chan) :=
  if c.closed then .panicked
  else if c.buf.length < c.dataqsiz then .done (true, ⟨c.dataqsiz, c.buf ++ [ep], c.closed⟩)
  else if block then .blocked
  else .done (false, c)

/-- The receive `<-c`.  The result carries the received element, whether the
receive was selected, and the channel afterwards.  A receive takes the oldest
buffered element; on an empty closed channel it returns the zero value at
once; on an empty open channel it parks (or, non-blocking, is not selected). -/
def chanrecv (c : Chan) (block : Bool) : Outcome ((Unit × Bool) × Chan) :=
  match c.buf with
  | x :: rest => .done ((x, true), ⟨c.dataqsiz, rest, c.closed⟩)
  | [] =>
    if c.closed then .done (((), true), c)
    else if block then .blocked
    else .done (((), false), c)

/-! ## `try_mutex.go` -/

/-- The Go type `tryMutex struct { ch chan struct{} }`. -/
structure tryMutex where
  ch : Chan
deriving DecidableEq, Repr

/-- The Go function `newTryMutex`: a mutex over `make(chan struct{}, 1)`. -/
def newTryMutex : tryMutex := ⟨makechan 1⟩

/-- The method `TryLock`: a `select` with the send case `m.ch <- struct{}{}`
(return `true`) and a `default` (return `false`). -/
def tryMutex.TryLock (m : tryMutex) : Outcome (Bool × tryMutex) :=
  match chansend m.ch () false with
  | .done (true, c) => .done (true, ⟨c⟩)
  | .done (false, c) => .done (false, ⟨c⟩)
  | .blocked => .blocked
  | .panicked => .panicked

/-- The method `Lock`: the blocking send `m.ch <- struct{}{}`. -/
def tryMutex.Lock (m : tryMutex) : Outcome tryMutex :=
  match chansend m.ch () true with
  | .done (_, c) => .done ⟨c⟩
  | .blocked => .blocked
  | .panicked => .panicked

/-- The method `Unlock`: the blocking receive `<-m.ch`. -/
def tryMutex.Unlock (m : tryMutex) : Outcome tryMutex :=
  match chanrecv m.ch true with
  | .done (_, c) => .done ⟨c⟩
  | .blocked => .blocked
  | .panicked => .panicked

/-- The mutex is held when its channel is full: no send finds room. -/
def tryMutex.held (m : tryMutex) : Bool := decide (m.ch.len = m.ch.cap)

/-- The states of a mutex made by `newTryMutex`: an open channel of capacity
one with at most one buffered token. -/
def tryMutex.wf (m : tryMutex) : Bool :=
  decide (m.ch.dataqsiz = 1) && !m.ch.closed && decide (m.ch.buf.length ≤ m.ch.dataqsiz)

/-- The state of a held mutex: one token in the channel. -/
def heldTryMutex : tryMutex := ⟨⟨1, [()], false⟩⟩

/-! ## The step machine of a `tryMutex` shared by several goroutines -/

/-- The three methods of `tryMutex`. -/
inductive Op where
  | TryLock
  | Lock
  | Unlock
deriving DecidableEq, Repr

/-- A call of a method by a goroutine (`caller` identifies the goroutine).
The Go code has no access to the identity of its caller. -/
structure Call where
  caller : Nat
  op : Op
deriving DecidableEq, Repr

/-- What a completed call returns: `TryLock` a Boolean, `Lock` and `Unlock`
nothing. -/
inductive Ret where
  | bool (b : Bool)
  | unit
deriving DecidableEq, Repr

/-- One step of the machine: the call `c` on the mutex `m`. -/
def exec (c : Call) (m : tryMutex) : Outcome (Ret × tryMutex) :=
  match c.op with
  | .TryLock => m.TryLock.map (fun p => (Ret.bool p.1, p.2))
  | .Lock => m.Lock.map (fun m' => (Ret.unit, m'))
  | .Unlock => m.Unlock.map (fun m' => (Ret.unit, m'))

/-- Run the calls one after the other; the run is `blocked` (or `panicked`)
as soon as one call is.  A completed run gives the returned values in order
and the final state. -/
def run : List Call → tryMutex → Outcome (List Ret × tryMutex)
  | [], m => .done ([], m)
  | c :: cs, m =>
    match exec c m with
    | .done (r, m') => (run cs m').map (fun p => (r :: p.1, p.2))
    | .blocked => .blocked
    | .panicked => .panicked

/-- A completed call together with the value it returned. -/
structure Event where
  call : Call
  ret : Ret
deriving DecidableEq, Repr

/-- The event is a successful acquisition: a `Lock` that completed or a
`TryLock` that returned `true`. -/
def Event.acquires (e : Event) : Bool :=
  match e.call.op, e.ret with
  | .Lock, _ => true
  | .TryLock, .bool true => true
  | _, _ => false

/-- The list of events is an execution from `m`: every call completes, in
order, with the recorded return value.  Gives the final state. -/
def execution : tryMutex → List Event → Option tryMutex
  | m, [] => some m
  | m, e :: es =>
    match exec e.call m with
    | .done (r, m') => if r = e.ret then execution m' es else none
    | .blocked => none
    | .panicked => none

/-- The states a mutex made by `newTryMutex` can reach by completed calls. -/
inductive Reachable : tryMutex → Prop where
  | init : Reachable newTryMutex
  | step {m m' : tryMutex} (c : Call) (r : Ret) :
      Reachable m → exec c m = .done (r, m') → Reachable m'

/-! ## Reference models of a binary semaphore with a flag -/

/-- The flag of the reference model: set when the mutex is held. -/
structure flagMutex where
  flag : Bool
deriving DecidableEq, Repr

/-- The abstraction: the flag is set iff the channel holds one token. -/
def abs (m : tryMutex) : flagMutex := ⟨decide (m.ch.len = 1)⟩

/-- Reference `Lock`: wait for the flag to be clear, then set it. -/
def flagMutex.Lock (f : flagMutex) : Outcome flagMutex :=
  if f.flag then .blocked else .done ⟨true⟩

/-- Reference `TryLock`: set the flag and return `true` iff it was clear. -/
def flagMutex.TryLock (f : flagMutex) : Outcome (Bool × flagMutex) :=
  if f.flag then .done (false, f) else .done (true, ⟨true⟩)

/-- Reference `Unlock` in the words "Unlock clears the flag". -/
def flagMutex.Unlock (_f : flagMutex) : Outcome flagMutex :=
  .done ⟨false⟩

/-- Reference `Unlock` that waits for the flag to be set, then clears it. -/
def flagMutex.UnlockWait (f : flagMutex) : Outcome flagMutex :=
  if f.flag then .done ⟨false⟩ else .blocked

/-- One step of the reference model whose `Unlock` clears the flag. -/
def flagExec (c : Call) (f : flagMutex) : Outcome (Ret × flagMutex) :=
  match c.op with
  | .TryLock => f.TryLock.map (fun p => (Ret.bool p.1, p.2))
  | .Lock => f.Lock.map (fun f' => (Ret.unit, f'))
  | .Unlock => f.Unlock.map (fun f' => (Ret.unit, f'))

/-- One step of the reference model whose `Unlock` waits for the flag. -/
def flagExecWait (c : Call) (f : flagMutex) : Outcome (Ret × flagMutex) :=
  match c.op with
  | .TryLock => f.TryLock.map (fun p => (Ret.bool p.1, p.2))
  | .Lock => f.Lock.map (fun f' => (Ret.unit, f'))
  | .Unlock => f.UnlockWait.map (fun f' => (Ret.unit, f'))

/-- Run calls on a reference model given by its step function. -/
def flagRunWith (stepf : Call → flagMutex → Outcome (Ret × flagMutex)) :
    List Call → flagMutex → Outcome (List Ret × flagMutex)
  | [], f => .done ([], f)
  | c :: cs, f =>
    match stepf c f with
    | .done (r, f') => (flagRunWith stepf cs f').map (fun p => (r :: p.1, p.2))
    | .blocked => .blocked
    | .panicked => .panicked

/-- The values returned by a run, forgetting the final state. -/
def rets {σ : Type} (o : Outcome (List Ret × σ)) : Outcome (List Ret) :=
  o.map (fun p => p.1)

/-! ## `repro_test.go`: the unbounded reader -/

/-- A Go `error` value; `none` is `nil`. -/
abbrev GoError := Option String

/-- The value of an integer as an `int64`: two's-complement wraparound. -/
def wrapInt64 (x : Int) : Int := (x + 2 ^ 63) % 2 ^ 64 - 2 ^ 63

/-- The new value stored by `atomic.AddInt64(addr, delta)` when `*addr = old`. -/
def atomicAddInt64 (old delta : Int) : Int := wrapInt64 (old + delta)

/-- The Go type `infiniteReader struct { read int64 }`. -/
structure infiniteReader where
  read : Int
deriving DecidableEq, Repr

/-- The method `Read`: add `int64(len(p))` to the counter, return
`(len(p), nil)`.  The buffer is not written to. -/
def infiniteReader.Read (r : infiniteReader) (p : List UInt8) :
    (Int × GoError) × infiniteReader :=
  (((p.length : Int), none), ⟨atomicAddInt64 r.read (wrapInt64 (p.length : Int))⟩)

/-- A sequence of `Read` calls, one per buffer: the results in order and the
reader afterwards. -/
def readSeq : infiniteReader → List (List UInt8) → List (Int × GoError) × infiniteReader
  | r, [] => ([], r)
  | r, p :: ps =>
    let res := r.Read p
    let rest := readSeq res.2 ps
    (res.1 :: rest.1, rest.2)

/-- The sum of the lengths of the buffers. -/
def totalLen (ps : List (List UInt8)) : Int := ((ps.map List.length).sum : Nat)

/-! ## `repro_test.go`: the echo handler -/

/-- The request body as an `io.Reader`: the chunks successive reads deliver,
after which the stream ends (`fail = none`, the reader reports `io.EOF`) or
a read fails with the error `fail`. -/
structure ReqBody where
  chunks : List (List UInt8)
  fail : GoError
deriving DecidableEq, Repr

/-- The read loop of `ioutil.ReadAll` on a reader that still has the chunks
given, `acc` being the data read so far: each `Read` appends its chunk, and the
loop ends at the first `Read` that gives an error, which is `io.EOF` (turned
into `nil`) when `fail = none` and the error `fail` otherwise. -/
def readAllLoop (fail : GoError) : List (List UInt8) → List UInt8 → List UInt8 × GoError
  | [], acc => (acc, fail)
  | c :: cs, acc => readAllLoop fail cs (acc ++ c)

/-- The Go function `ioutil.ReadAll`: read until end of stream or error; give
the data read and the error (`nil` at end of stream). -/
def ReadAll (b : ReqBody) : List UInt8 × GoError :=
  readAllLoop b.fail b.chunks []

/-- The part of `http.Request` the handler uses. -/
structure Request where
  Body : ReqBody
deriving DecidableEq, Repr

/-- The server side of an `http.ResponseWriter`: whether the status line was
written, the status code, the body bytes written, and the fault of the
underlying connection: `none` when it takes every byte, `some (n, e)` when it
takes `n` more body bytes and then fails every write with the error `e`.
Header fields other than the status are left out. -/
structure ResponseWriter where
  wroteHeader : Bool
  status : Nat
  body : List UInt8
  fault : Option (Nat × String)
deriving DecidableEq, Repr

/-- The constant `http.StatusOK`. -/
def StatusOK : Nat := 200

/-- The constant `http.StatusInternalServerError`. -/
def StatusInternalServerError : Nat := 500

/-- The writer a handler is given at the start of a request. -/
def newResponseWriter (fault : Option (Nat × String)) : ResponseWriter :=
  ⟨false, 0, [], fault⟩

/-- The method `WriteHeader`: sets the status once; later calls change
nothing. -/
def ResponseWriter.WriteHeader (w : ResponseWriter) (code : Nat) : ResponseWriter :=
  if w.wroteHeader then w else ⟨true, code, w.body, w.fault⟩

/-- The method `Write`: calls `WriteHeader(http.StatusOK)` if no header was
written yet, then writes the bytes; gives the count written and the error.
A write the connection cannot take whole writes the bytes it still takes and
gives their count with the error. -/
def ResponseWriter.Write (w : ResponseWriter) (p : List UInt8) :
    (Nat × GoError) × ResponseWriter :=
  let w1 := w.WriteHeader StatusOK
  match w1.fault with
  | none => ((p.length, none), ⟨w1.wroteHeader, w1.status, w1.body ++ p, none⟩)
  | some (n, e) =>
    if p.length ≤ n then
      ((p.length, none), ⟨w1.wroteHeader, w1.status, w1.body ++ p, some (n - p.length, e)⟩)
    else
      ((n, some e), ⟨w1.wroteHeader, w1.status, w1.body ++ p.take n, some (0, e)⟩)

/-- The Go function `http.Error`: `WriteHeader(code)` and the message followed
by a newline as the body. -/
def httpError (w : ResponseWriter) (msg : String) (code : Nat) : ResponseWriter :=
  ((w.WriteHeader code).Write (msg ++ "\n").toUTF8.data.toList).2

/-- The handler `echoHandler`: read the whole request body; if that gave no
error write it back; if either gave an error, answer with `http.Error` and
status 500. -/
def echoHandler (w : ResponseWriter) (r : Request) : ResponseWriter :=
  let (body, err) := ReadAll r.Body
  let (w, err) :=
    match err with
    | none => let res := w.Write body; (res.2, res.1.2)
    | some e => (w, some e)
  match err with
  | some e => httpError w e StatusInternalServerError
  | none => w

/-- The body of `echoTest`, the 18 bytes of the JSON text with the key
`hello` and the value `world`. -/
def echoTestData : List UInt8 :=
  [123, 34, 104, 101, 108, 108, 111, 34, 58, 32, 34, 119, 111, 114, 108, 100, 34, 125]

/-! ## Basic facts about the two states of a `tryMutex` -/

theorem Outcome.map_eq_done {α β : Type} {f : α → β} {x : Outcome α} {b : β}
    (h : x.map f = .done b) : ∃ a, x = .done a ∧ f a = b := by
  cases x with
  | done a => exact ⟨a, rfl, by simpa [Outcome.map] using h⟩
  | blocked => simp [Outcome.map] at h
  | panicked => simp [Outcome.map] at h

theorem wf_cases (m : tryMutex) (h : m.wf = true) :
    m = newTryMutex ∨ m = heldTryMutex := by
  obtain ⟨⟨q, buf, cl⟩⟩ := m
  simp only [tryMutex.wf, Bool.and_eq_true, decide_eq_true_eq, Bool.not_eq_true'] at h
  obtain ⟨⟨h1, h2⟩, h3⟩ := h
  subst h1
  subst h2
  match buf, h3 with
  | [], _ => exact Or.inl rfl
  | [()], _ => exact Or.inr rfl
  | _ :: _ :: _, h3 => simp at h3

theorem wf_new : newTryMutex.wf = true := by decide

theorem wf_held : heldTryMutex.wf = true := by decide

theorem held_cases (m : tryMutex) (h : m.wf = true) :
    (m.held = false ∧ m = newTryMutex) ∨ (m.held = true ∧ m = heldTryMutex) := by
  rcases wf_cases m h with rfl | rfl
  · exact Or.inl ⟨by decide, rfl⟩
  · exact Or.inr ⟨by decide, rfl⟩

theorem exec_wf (c : Call) (m m' : tryMutex) (r : Ret) (h : m.wf = true)
    (he : exec c m = .done (r, m')) : m'.wf = true := by
  obtain ⟨a, op⟩ := c
  rcases wf_cases m h with rfl | rfl <;> cases op <;>
    simp [exec, tryMutex.TryLock, tryMutex.Lock, tryMutex.Unlock, chansend, chanrecv,
      newTryMutex, heldTryMutex, makechan, Outcome.map] at he <;>
    (obtain ⟨-, rfl⟩ := he; decide)

theorem reachable_wf (m : tryMutex) (h : Reachable m) : m.wf = true := by
  induction h with
  | init => exact wf_new
  | step c r _ he ih => exact exec_wf c _ _ r ih he

theorem reachable_held : Reachable heldTryMutex :=
  Reachable.step ⟨0, .Lock⟩ .unit Reachable.init rfl

theorem wf_reachable (m : tryMutex) (h : m.wf = true) : Reachable m := by
  rcases wf_cases m h with rfl | rfl
  · exact Reachable.init
  · exact reachable_held

theorem execution_reachable (es : List Event) :
    ∀ (m m' : tryMutex), Reachable m → execution m es = some m' → Reachable m' := by
  induction es with
  | nil =>
    intro m m' hr h
    simp only [execution, Option.some.injEq] at h
    exact h ▸ hr
  | cons e es ih =>
    intro m m' hr h
    simp only [execution] at h
    cases hx : exec e.call m with
    | done p =>
      obtain ⟨r, m1⟩ := p
      rw [hx] at h
      by_cases hre : r = e.ret
      · simp only [hre, if_true] at h
        exact ih m1 m' (Reachable.step e.call r hr hx) h
      · simp [hre] at h
    | blocked => rw [hx] at h; simp at h
    | panicked => rw [hx] at h; simp at h

/-- From the held state, a run of calls none of which is an `Unlock`, followed
by a `Lock`, never completes. -/
theorem run_lock_of_held (a : Nat) (cs : List Call) (hcs : ∀ u ∈ cs, u.op ≠ .Unlock)
    (o : List Ret × tryMutex) : run (cs ++ [⟨a, .Lock⟩]) heldTryMutex ≠ .done o := by
  induction cs generalizing o with
  | nil => simp [run, exec, tryMutex.Lock, chansend, heldTryMutex, Outcome.map]
  | cons c cs ih =>
    obtain ⟨b, op⟩ := c
    have hcs' : ∀ u ∈ cs, u.op ≠ .Unlock := fun u hu => hcs u (List.mem_cons_of_mem _ hu)
    cases op with
    | Unlock => exact absurd rfl (hcs ⟨b, .Unlock⟩ (List.mem_cons_self _ _))
    | Lock => simp [run, exec, tryMutex.Lock, chansend, heldTryMutex, Outcome.map]
    | TryLock =>
      intro h
      have hx : exec ⟨b, .TryLock⟩ heldTryMutex = .done (.bool false, heldTryMutex) := rfl
      simp only [List.cons_append, run, hx] at h
      obtain ⟨o', ho', -⟩ := Outcome.map_eq_done h
      exact ih hcs' o' ho'

/-- From the held state, an execution without `Unlock` has no successful
acquisition as its last event. -/
theorem execution_of_held (es : List Event) (hes : ∀ e ∈ es, e.call.op ≠ .Unlock)
    (b : Event) (m' : tryMutex) (h : execution heldTryMutex (es ++ [b]) = some m') :
    b.acquires = false := by
  induction es with
  | nil =>
    obtain ⟨⟨c, op⟩, r⟩ := b
    cases op with
    | Unlock => rfl
    | Lock => simp [execution, exec, tryMutex.Lock, chansend, heldTryMutex, Outcome.map] at h
    | TryLock =>
      have hx : exec ⟨c, .TryLock⟩ heldTryMutex = .done (.bool false, heldTryMutex) := rfl
      simp only [List.nil_append, execution, hx] at h
      by_cases hr : Ret.bool false = r
      · subst hr; rfl
      · simp [hr] at h
  | cons e es ih =>
    have hes' : ∀ x ∈ es, x.call.op ≠ .Unlock := fun x hx => hes x (List.mem_cons_of_mem _ hx)
    have he := hes e (List.mem_cons_self _ _)
    obtain ⟨⟨c, op⟩, r⟩ := e
    cases op with
    | Unlock => exact absurd rfl he
    | Lock => simp [execution, exec, tryMutex.Lock, chansend, heldTryMutex, Outcome.map] at h
    | TryLock =>
      have hx : exec ⟨c, .TryLock⟩ heldTryMutex = .done (.bool false, heldTryMutex) := rfl
      simp only [List.cons_append, execution, hx] at h
      by_cases hr : Ret.bool false = r
      · simp only [hr, if_true] at h
        exact ih hes' h
      · simp [hr] at h

/-! ## The contract of `tryMutex` -/

/-- C1: on every state of a tryMutex (an open capacity-1 channel) `TryLock`
returns at once (it neither parks nor panics), whoever calls it; when the
mutex is held it returns `false` and leaves the state as it is, and when
the mutex is not held it returns `true` and the mutex is held afterwards. -/
theorem tryLock_never_waits (m : tryMutex) (hwf : m.wf = true) :
    (∃ b m', m.TryLock = .done (b, m')) ∧
    (∀ a b : Nat, exec ⟨a, .TryLock⟩ m = exec ⟨b, .TryLock⟩ m) ∧
    (m.held = true → m.TryLock = .done (false, m)) ∧
    (m.held = false → ∃ m', m.TryLock = .done (true, m') ∧ m'.held = true) := by
  rcases wf_cases m hwf with rfl | rfl
  · exact ⟨⟨true, heldTryMutex, rfl⟩, fun _ _ => rfl, fun h => absurd h (by decide),
      fun _ => ⟨heldTryMutex, rfl, by decide⟩⟩
  · exact ⟨⟨false, heldTryMutex, rfl⟩, fun _ _ => rfl, fun _ => rfl,
      fun h => absurd h (by decide)⟩

theorem tryLock_never_waits_witness :
    heldTryMutex.wf = true ∧
    ((∃ b m', heldTryMutex.TryLock = .done (b, m')) ∧
    (∀ a b : Nat, exec ⟨a, .TryLock⟩ heldTryMutex = exec ⟨b, .TryLock⟩ heldTryMutex) ∧
    (heldTryMutex.held = true → heldTryMutex.TryLock = .done (false, heldTryMutex)) ∧
    (heldTryMutex.held = false →
      ∃ m', heldTryMutex.TryLock = .done (true, m') ∧ m'.held = true)) :=
  ⟨by decide, tryLock_never_waits heldTryMutex (by decide)⟩

/-- C2: on every held tryMutex `Unlock` completes and leaves the mutex not
held, so that a `TryLock` right after it returns `true` and a `Lock` right
after it completes; `Lock` then `Unlock`, and a successful `TryLock` then
`Unlock`, bring a fresh mutex back to its initial state. -/
theorem unlock_releases (m : tryMutex) (hwf : m.wf = true) (hheld : m.held = true) :
    (∃ m', m.Unlock = .done m' ∧ m'.held = false ∧
      (∃ m'', m'.TryLock = .done (true, m'')) ∧ (∃ m'', m'.Lock = .done m'')) ∧
    (∃ m1, newTryMutex.Lock = .done m1 ∧ m1.Unlock = .done newTryMutex) ∧
    (∃ m1, newTryMutex.TryLock = .done (true, m1) ∧ m1.Unlock = .done newTryMutex) := by
  rcases held_cases m hwf with ⟨h, -⟩ | ⟨-, rfl⟩
  · rw [h] at hheld
    exact absurd hheld (by decide)
  · exact ⟨⟨newTryMutex, rfl, by decide, ⟨heldTryMutex, rfl⟩, ⟨heldTryMutex, rfl⟩⟩,
      ⟨heldTryMutex, rfl, rfl⟩, ⟨heldTryMutex, rfl, rfl⟩⟩

theorem unlock_releases_witness :
    (heldTryMutex.wf = true ∧ heldTryMutex.held = true) ∧
    ((∃ m', heldTryMutex.Unlock = .done m' ∧ m'.held = false ∧
      (∃ m'', m'.TryLock = .done (true, m'')) ∧ (∃ m'', m'.Lock = .done m'')) ∧
    (∃ m1, newTryMutex.Lock = .done m1 ∧ m1.Unlock = .done newTryMutex) ∧
    (∃ m1, newTryMutex.TryLock = .done (true, m1) ∧ m1.Unlock = .done newTryMutex)) :=
  ⟨⟨by decide, by decide⟩, unlock_releases heldTryMutex (by decide) (by decide)⟩

/-- C3: `Lock` blocks until acquired.  On every state of a tryMutex a `Lock`
step is enabled exactly when the mutex is not held, and a completed `Lock`
leaves the mutex held; from a held mutex, in every run in which a `Lock`
completes, an `Unlock` was called before it. -/
theorem lock_blocks_until_acquired (m : tryMutex) (hwf : m.wf = true) :
    (∀ m', m.Lock = .done m' → m.held = false ∧ m'.held = true) ∧
    (m.held = false → ∃ m', m.Lock = .done m') ∧
    (m.held = true → m.Lock = .blocked) ∧
    (m.held = true → ∀ (cs : List Call) (a : Nat) (o : List Ret × tryMutex),
      run (cs ++ [⟨a, .Lock⟩]) m = .done o → ∃ u ∈ cs, u.op = .Unlock) := by
  rcases wf_cases m hwf with rfl | rfl
  · refine ⟨?_, fun _ => ⟨heldTryMutex, rfl⟩, fun h => absurd h (by decide),
      fun h => absurd h (by decide)⟩
    intro m' h
    have h' : heldTryMutex = m' := by
      simpa [tryMutex.Lock, chansend, newTryMutex, makechan, heldTryMutex] using h
    subst h'
    exact ⟨by decide, by decide⟩
  · refine ⟨?_, fun h => absurd h (by decide), fun _ => rfl, ?_⟩
    · intro m' h
      simp [tryMutex.Lock, chansend, heldTryMutex] at h
    · intro _ cs a o h
      by_contra hno
      have hcs : ∀ u ∈ cs, u.op ≠ .Unlock := fun u hu hop => hno ⟨u, hu, hop⟩
      exact run_lock_of_held a cs hcs o h

theorem lock_blocks_until_acquired_witness :
    heldTryMutex.wf = true ∧
    heldTryMutex.Lock = .blocked ∧
    (∃ u ∈ [(⟨1, .TryLock⟩ : Call), ⟨2, .Unlock⟩], u.op = .Unlock) :=
  ⟨by decide,
   (lock_blocks_until_acquired heldTryMutex (by decide)).2.2.1 (by decide),
   (lock_blocks_until_acquired heldTryMutex (by decide)).2.2.2 (by decide)
     [⟨1, .TryLock⟩, ⟨2, .Unlock⟩] 3 ([.bool false, .unit, .unit], heldTryMutex) rfl⟩

/-- C4: tryMutex is a mutual-exclusion lock.  In every state reachable from
`newTryMutex()` by `TryLock`, `Lock` and `Unlock` steps the channel holds at
most one token, and in every execution that goes on from such a state, after
a successful acquisition (a `Lock` that completed or a `TryLock` that returned
`true`) and as long as no `Unlock` follows, no `Lock` completes and
no `TryLock` returns `true`. -/
theorem tryMutex_mutual_exclusion (m : tryMutex) (hr : Reachable m) :
    newTryMutex.held = false ∧ m.ch.len ≤ 1 ∧
    ∀ (a : Event) (mid : List Event) (b : Event) (m' : tryMutex),
      execution m (a :: (mid ++ [b])) = some m' → a.acquires = true →
      (∀ e ∈ mid, e.call.op ≠ .Unlock) → b.acquires = false := by
  refine ⟨by decide, ?_, ?_⟩
  · rcases wf_cases m (reachable_wf m hr) with rfl | rfl <;> decide
  · intro a mid b m' h ha hmid
    obtain ⟨⟨c, op⟩, r⟩ := a
    have hstep : ∀ m1, exec ⟨c, op⟩ m = .done (r, m1) → m1 = heldTryMutex := by
      intro m1 hx
      rcases wf_cases m (reachable_wf m hr) with rfl | rfl <;> cases op <;>
        simp [exec, tryMutex.TryLock, tryMutex.Lock, tryMutex.Unlock, chansend, chanrecv,
          newTryMutex, heldTryMutex, makechan, Outcome.map] at hx <;>
        first
          | (obtain ⟨-, rfl⟩ := hx; rfl)
          | (obtain ⟨rfl, -⟩ := hx; simp [Event.acquires] at ha)
    simp only [execution] at h
    cases hx : exec ⟨c, op⟩ m with
    | done p =>
      obtain ⟨r1, m1⟩ := p
      rw [hx] at h
      by_cases hre : r1 = r
      · subst hre
        simp only [if_true] at h
        have := hstep m1 hx
        subst this
        exact execution_of_held mid hmid b m' h
      · simp [hre] at h
    | blocked => rw [hx] at h; simp at h
    | panicked => rw [hx] at h; simp at h

theorem tryMutex_mutual_exclusion_witness :
    Reachable newTryMutex ∧ newTryMutex.ch.len ≤ 1 ∧
    Event.acquires ⟨⟨3, .TryLock⟩, .bool false⟩ = false :=
  ⟨Reachable.init, (tryMutex_mutual_exclusion newTryMutex Reachable.init).2.1,
   (tryMutex_mutual_exclusion newTryMutex Reachable.init).2.2
     ⟨⟨1, .Lock⟩, .unit⟩ [⟨⟨2, .TryLock⟩, .bool false⟩] ⟨⟨3, .TryLock⟩, .bool false⟩
     heldTryMutex rfl rfl (by decide)⟩

/-- C5: the tryMutex cannot fail.  In every reachable state every call
either completes or is not enabled (it never panics), a completed call leaves
the mutex in one of the two states "not held" and "held", no run of calls
panics, and `Unlock` on a mutex that is not held is simply not enabled. -/
theorem tryMutex_cannot_fail (m : tryMutex) (hr : Reachable m) (c : Call) :
    ((∃ r m', exec c m = .done (r, m')) ∨ exec c m = .blocked) ∧
    exec c m ≠ .panicked ∧
    (∀ r m', exec c m = .done (r, m') → m' = newTryMutex ∨ m' = heldTryMutex) ∧
    (∀ cs : List Call, run cs m ≠ .panicked) ∧
    (m.held = false → exec ⟨c.caller, .Unlock⟩ m = .blocked) := by
  have hwf := reachable_wf m hr
  have hnp : ∀ (m : tryMutex), m.wf = true → ∀ c : Call, exec c m ≠ .panicked := by
    intro m hm c
    obtain ⟨a, op⟩ := c
    rcases wf_cases m hm with rfl | rfl <;> cases op <;>
      simp [exec, tryMutex.TryLock, tryMutex.Lock, tryMutex.Unlock, chansend, chanrecv,
        newTryMutex, heldTryMutex, makechan, Outcome.map]
  refine ⟨?_, hnp m hwf c, ?_, ?_, ?_⟩
  · cases hx : exec c m with
    | done p => exact Or.inl ⟨p.1, p.2, rfl⟩
    | blocked => exact Or.inr rfl
    | panicked => exact absurd hx (hnp m hwf c)
  · intro r m' hx
    exact wf_cases m' (exec_wf c m m' r hwf hx)
  · intro cs
    induction cs generalizing m with
    | nil => simp [run]
    | cons d cs ih =>
      simp only [run]
      cases hx : exec d m with
      | done p =>
        obtain ⟨r, m1⟩ := p
        have h1 := ih m1 (Reachable.step d r hr hx) (exec_wf d m m1 r hwf hx)
        cases hy : run cs m1 with
        | done q => simp [Outcome.map, hy]
        | blocked => simp [Outcome.map, hy]
        | panicked => exact absurd hy h1
      | blocked => simp
      | panicked => exact absurd hx (hnp m hwf d)
  · intro h
    rcases held_cases m hwf with ⟨-, rfl⟩ | ⟨h', -⟩
    · rfl
    · rw [h'] at h
      exact absurd h (by decide)

theorem tryMutex_cannot_fail_witness :
    Reachable newTryMutex ∧
    exec ⟨7, .Unlock⟩ newTryMutex ≠ .panicked ∧
    exec ⟨7, .Unlock⟩ newTryMutex = .blocked :=
  ⟨Reachable.init, (tryMutex_cannot_fail newTryMutex Reachable.init ⟨7, .Unlock⟩).2.1,
   (tryMutex_cannot_fail newTryMutex Reachable.init ⟨7, .Unlock⟩).2.2.2.2 (by decide)⟩

/-- C10: tryMutex tracks no owner.  On every state of a tryMutex what `Unlock`
does is the same for every caller and depends only on whether the mutex is
held; an acquisition (`Lock` or successful `TryLock`) by a caller `a`
followed by `Unlock` by a caller `b` completes and leaves the mutex not held;
and `Unlock` on a mutex that is not held is not enabled. -/
theorem unlock_tracks_no_owner (m : tryMutex) (hwf : m.wf = true) (a b : Nat) :
    exec ⟨a, .Unlock⟩ m = exec ⟨b, .Unlock⟩ m ∧
    (∀ m2 : tryMutex, m2.wf = true → m2.held = m.held →
      exec ⟨b, .Unlock⟩ m2 = exec ⟨a, .Unlock⟩ m) ∧
    (m.held = false →
      (∃ m', run [⟨a, .Lock⟩, ⟨b, .Unlock⟩] m = .done ([.unit, .unit], m') ∧
        m'.held = false) ∧
      (∃ m', run [⟨a, .TryLock⟩, ⟨b, .Unlock⟩] m = .done ([.bool true, .unit], m') ∧
        m'.held = false)) ∧
    (m.held = false → exec ⟨b, .Unlock⟩ m = .blocked ∧ m.Unlock = .blocked) := by
  refine ⟨rfl, ?_, ?_, ?_⟩
  · intro m2 h2 hh
    rcases held_cases m hwf with ⟨h, rfl⟩ | ⟨h, rfl⟩ <;>
      rcases held_cases m2 h2 with ⟨h', rfl⟩ | ⟨h', rfl⟩ <;>
      first
        | rfl
        | (rw [h, h'] at hh; exact absurd hh (by decide))
  · intro h
    rcases held_cases m hwf with ⟨-, rfl⟩ | ⟨h', -⟩
    · exact ⟨⟨newTryMutex, rfl, by decide⟩, ⟨newTryMutex, rfl, by decide⟩⟩
    · rw [h'] at h
      exact absurd h (by decide)
  · intro h
    rcases held_cases m hwf with ⟨-, rfl⟩ | ⟨h', -⟩
    · exact ⟨rfl, rfl⟩
    · rw [h'] at h
      exact absurd h (by decide)

theorem unlock_tracks_no_owner_witness :
    newTryMutex.wf = true ∧
    (∃ m', run [⟨1, .Lock⟩, ⟨2, .Unlock⟩] newTryMutex = .done ([.unit, .unit], m') ∧
      m'.held = false) ∧
    (exec ⟨2, .Unlock⟩ newTryMutex = .blocked ∧ newTryMutex.Unlock = .blocked) :=
  ⟨by decide,
   ((unlock_tracks_no_owner newTryMutex (by decide) 1 2).2.2.1 (by decide)).1,
   (unlock_tracks_no_owner newTryMutex (by decide) 1 2).2.2.2 (by decide)⟩

/-! ## The channel mutex and the flag model -/

theorem abs_new : abs newTryMutex = ⟨false⟩ := rfl

theorem abs_held : abs heldTryMutex = ⟨true⟩ := rfl

theorem exec_abs (m : tryMutex) (hwf : m.wf = true) (c : Call) :
    (exec c m).map (fun p => (p.1, abs p.2)) = flagExecWait c (abs m) := by
  obtain ⟨a, op⟩ := c
  rcases wf_cases m hwf with rfl | rfl <;> cases op <;> rfl

theorem run_abs (cs : List Call) :
    ∀ m : tryMutex, m.wf = true →
      (run cs m).map (fun p => (p.1, abs p.2)) = flagRunWith flagExecWait cs (abs m) := by
  induction cs with
  | nil => intro m _; rfl
  | cons c cs ih =>
    intro m hwf
    have hc := exec_abs m hwf c
    simp only [run, flagRunWith]
    cases hx : exec c m with
    | done p =>
      obtain ⟨r, m1⟩ := p
      rw [hx] at hc
      simp only [Outcome.map] at hc
      rw [← hc]
      have h1 := ih m1 (exec_wf c m m1 r hwf hx)
      simp only [← h1]
      cases run cs m1 <;> rfl
    | blocked =>
      rw [hx] at hc
      simp only [Outcome.map] at hc
      rw [← hc]
      rfl
    | panicked =>
      rw [hx] at hc
      simp only [Outcome.map] at hc
      rw [← hc]
      rfl

/-- C9, as stated, fails: with the reference `Unlock` that just clears the
flag, the call sequence consisting of one `Unlock` from the initial state
completes in the flag model and is blocked on the channel mutex, so the two
models do not produce the same results on every sequence. -/
theorem flag_unlock_not_simulated :
    run [⟨0, .Unlock⟩] newTryMutex = .blocked ∧
    flagRunWith flagExec [⟨0, .Unlock⟩] (abs newTryMutex) = .done ([.unit], ⟨false⟩) ∧
    ¬ (∀ cs : List Call,
      rets (run cs newTryMutex) = rets (flagRunWith flagExec cs (abs newTryMutex))) := by
  refine ⟨rfl, rfl, ?_⟩
  intro h
  have h1 := h [⟨0, .Unlock⟩]
  revert h1
  decide

/-- C9, amended: mapping "the channel holds one token" to "the flag is set",
the channel mutex and the flag model in which `Lock` waits for the flag to be
clear then sets it, `TryLock` sets the flag and returns `true` iff it was
clear, and `Unlock` waits for the flag to be set then clears it, simulate
each other step by step, and every sequence of calls gives the same results
(returned values, or being blocked) in both. -/
theorem tryMutex_refines_flag (m : tryMutex) (hwf : m.wf = true) (c : Call) :
    (∀ r m', exec c m = .done (r, m') → flagExecWait c (abs m) = .done (r, abs m')) ∧
    (∀ r f', flagExecWait c (abs m) = .done (r, f') →
      ∃ m', exec c m = .done (r, m') ∧ abs m' = f') ∧
    (exec c m = .blocked ↔ flagExecWait c (abs m) = .blocked) ∧
    (∀ f : flagMutex, ∃ m0 : tryMutex, m0.wf = true ∧ abs m0 = f) ∧
    (∀ cs : List Call,
      (run cs m).map (fun p => (p.1, abs p.2)) = flagRunWith flagExecWait cs (abs m)) ∧
    (∀ cs : List Call,
      rets (run cs newTryMutex) = rets (flagRunWith flagExecWait cs ⟨false⟩)) := by
  have hc := exec_abs m hwf c
  refine ⟨?_, ?_, ?_, ?_, fun cs => run_abs cs m hwf, ?_⟩
  · intro r m' hx
    rw [hx] at hc
    exact hc.symm
  · intro r f' hf
    rw [hf] at hc
    obtain ⟨p, hp, hpf⟩ := Outcome.map_eq_done hc
    refine ⟨p.2, ?_, ?_⟩
    · rw [hp]
      have : p.1 = r := congrArg Prod.fst hpf
      rw [← this]
    · exact congrArg Prod.snd hpf
  · constructor
    · intro hx
      rw [hx] at hc
      exact hc.symm
    · intro hf
      rw [hf] at hc
      cases hx : exec c m with
      | done p => rw [hx] at hc; simp [Outcome.map] at hc
      | blocked => rfl
      | panicked => rw [hx] at hc; simp [Outcome.map] at hc
  · intro f
    obtain ⟨b⟩ := f
    cases b
    · exact ⟨newTryMutex, wf_new, rfl⟩
    · exact ⟨heldTryMutex, wf_held, rfl⟩
  · intro cs
    have h := run_abs cs newTryMutex wf_new
    rw [abs_new] at h
    rw [← h]
    simp only [rets]
    cases run cs newTryMutex <;> rfl

theorem tryMutex_refines_flag_witness :
    newTryMutex.wf = true ∧
    (exec ⟨0, .Unlock⟩ newTryMutex = .blocked ↔
      flagExecWait ⟨0, .Unlock⟩ (abs newTryMutex) = .blocked) ∧
    rets (run [⟨0, .TryLock⟩, ⟨1, .TryLock⟩, ⟨1, .Unlock⟩, ⟨0, .Lock⟩] newTryMutex) =
      rets (flagRunWith flagExecWait
        [⟨0, .TryLock⟩, ⟨1, .TryLock⟩, ⟨1, .Unlock⟩, ⟨0, .Lock⟩] ⟨false⟩) :=
  ⟨by decide,
   (tryMutex_refines_flag newTryMutex (by decide) ⟨0, .Unlock⟩).2.2.1,
   (tryMutex_refines_flag newTryMutex (by decide) ⟨0, .Unlock⟩).2.2.2.2.2
     [⟨0, .TryLock⟩, ⟨1, .TryLock⟩, ⟨1, .Unlock⟩, ⟨0, .Lock⟩]⟩

/-! ## The unbounded reader -/

theorem wrapInt64_add_wrap (a b : Int) : wrapInt64 (a + wrapInt64 b) = wrapInt64 (a + b) := by
  unfold wrapInt64
  omega

theorem wrapInt64_of_range (a : Int) (h : -2 ^ 63 ≤ a ∧ a < 2 ^ 63) : wrapInt64 a = a := by
  unfold wrapInt64
  omega

theorem wrapInt64_range (a : Int) : -2 ^ 63 ≤ wrapInt64 a ∧ wrapInt64 a < 2 ^ 63 := by
  unfold wrapInt64
  omega

theorem read_counter (r : infiniteReader) (p : List UInt8) :
    (r.Read p).2.read = wrapInt64 (r.read + (p.length : Int)) := by
  simp only [infiniteReader.Read, atomicAddInt64]
  exact wrapInt64_add_wrap _ _

theorem totalLen_cons (p : List UInt8) (ps : List (List UInt8)) :
    totalLen (p :: ps) = (p.length : Int) + totalLen ps := by
  simp [totalLen]

theorem readSeq_results (ps : List (List UInt8)) :
    ∀ r : infiniteReader,
      (readSeq r ps).1 = ps.map (fun q => (((q.length : Int), none) : Int × GoError)) := by
  induction ps with
  | nil => intro r; rfl
  | cons p ps ih =>
    intro r
    simp only [readSeq, List.map_cons, ih]
    rfl

theorem readSeq_counter (ps : List (List UInt8)) :
    ∀ r : infiniteReader, (-2 ^ 63 ≤ r.read ∧ r.read < 2 ^ 63) →
      (readSeq r ps).2.read = wrapInt64 (r.read + totalLen ps) := by
  induction ps with
  | nil =>
    intro r hr
    simp only [readSeq, totalLen, List.map_nil, List.sum_nil, Nat.cast_zero, add_zero]
    exact (wrapInt64_of_range _ hr).symm
  | cons p ps ih =>
    intro r hr
    simp only [readSeq]
    rw [ih (r.Read p).2 (by rw [read_counter]; exact wrapInt64_range _), read_counter,
      totalLen_cons, add_comm (wrapInt64 _), wrapInt64_add_wrap]
    congr 1
    ring

theorem totalLen_replicate (n : Nat) (p : List UInt8) :
    totalLen (List.replicate n p) = (n : Int) * (p.length : Int) := by
  induction n with
  | zero => simp [totalLen]
  | succ n ih =>
    rw [List.replicate_succ, totalLen_cons, ih]
    push_cast
    ring

/-- C8, as stated, fails: the counter is an `int64`.  At the counter value
`2^63 - 1` a `Read` into a one-byte buffer returns `(1, nil)` and leaves the
counter at `-2^63`, not one more than before; and after `2^63` reads into a
one-byte buffer from a zero reader the counter is not the sum of the buffer
lengths. -/
theorem infiniteReader_counter_wraps :
    (infiniteReader.Read ⟨2 ^ 63 - 1⟩ [0]).1 = (1, none) ∧
    (infiniteReader.Read ⟨2 ^ 63 - 1⟩ [0]).2.read = -2 ^ 63 ∧
    (infiniteReader.Read ⟨2 ^ 63 - 1⟩ [0]).2.read ≠ (2 ^ 63 - 1) + 1 ∧
    (readSeq ⟨0⟩ (List.replicate (2 ^ 63) [0])).2.read ≠
      totalLen (List.replicate (2 ^ 63) [0]) := by
  have hstep : (infiniteReader.Read ⟨2 ^ 63 - 1⟩ [0]).2.read = -2 ^ 63 := by
    rw [read_counter]
    simp only [List.length_singleton, Nat.cast_one]
    unfold wrapInt64
    omega
  refine ⟨rfl, hstep, ?_, ?_⟩
  · rw [hstep]
    omega
  · have h0 : (-2 ^ 63 : Int) ≤ (infiniteReader.mk 0).read ∧
        (infiniteReader.mk 0).read < 2 ^ 63 := by
      constructor <;> simp
    rw [readSeq_counter _ ⟨0⟩ h0, totalLen_replicate]
    simp only [List.length_singleton, Nat.cast_one, mul_one, zero_add, Nat.cast_pow,
      Nat.cast_ofNat]
    unfold wrapInt64
    omega

/-- C8, amended: for every buffer `p` (the empty one included) and every
`int64` counter value, `Read(p)` returns `(len(p), nil)`, never an error or
end of stream, and adds `len(p)` to the counter with `int64` wraparound, which
is exactly `len(p)` more as long as the sum stays below `2^63`; after any
sequence of `Read` calls every call has returned `(len, nil)` and the counter
is the wrapped sum of the start value and the buffer lengths, the exact sum
as long as it stays below `2^63`. -/
theorem infiniteReader_read (r : infiniteReader) (hr : -2 ^ 63 ≤ r.read ∧ r.read < 2 ^ 63)
    (p : List UInt8) (ps : List (List UInt8)) :
    (r.Read p).1 = ((p.length : Int), none) ∧
    (r.Read p).2.read = wrapInt64 (r.read + (p.length : Int)) ∧
    (r.read + (p.length : Int) < 2 ^ 63 → (r.Read p).2.read = r.read + (p.length : Int)) ∧
    (readSeq r ps).1 = ps.map (fun q => (((q.length : Int), none) : Int × GoError)) ∧
    (readSeq r ps).2.read = wrapInt64 (r.read + totalLen ps) ∧
    (r.read + totalLen ps < 2 ^ 63 → (readSeq r ps).2.read = r.read + totalLen ps) := by
  refine ⟨rfl, read_counter r p, ?_, readSeq_results ps r, readSeq_counter ps r hr, ?_⟩
  · intro h
    rw [read_counter]
    exact wrapInt64_of_range _ ⟨by omega, h⟩
  · intro h
    rw [readSeq_counter ps r hr]
    have h0 : (0 : Int) ≤ totalLen ps := by
      unfold totalLen
      exact Int.natCast_nonneg _
    exact wrapInt64_of_range _ ⟨by omega, h⟩

theorem infiniteReader_read_witness :
    ((-2 ^ 63 : Int) ≤ (infiniteReader.mk 0).read ∧ (infiniteReader.mk 0).read < 2 ^ 63) ∧
    (infiniteReader.Read ⟨0⟩ [1, 2, 3]).1 = (3, none) ∧
    (infiniteReader.Read ⟨0⟩ [1, 2, 3]).2.read = 3 ∧
    (readSeq ⟨0⟩ [[1, 2, 3], [], [4, 5]]).1 = [(3, none), (0, none), (2, none)] ∧
    (readSeq ⟨0⟩ [[1, 2, 3], [], [4, 5]]).2.read = 5 :=
  ⟨by decide,
   (infiniteReader_read ⟨0⟩ (by decide) [1, 2, 3] [[1, 2, 3], [], [4, 5]]).1,
   (infiniteReader_read ⟨0⟩ (by decide) [1, 2, 3] [[1, 2, 3], [], [4, 5]]).2.2.1 (by decide),
   (infiniteReader_read ⟨0⟩ (by decide) [1, 2, 3] [[1, 2, 3], [], [4, 5]]).2.2.2.1,
   (infiniteReader_read ⟨0⟩ (by decide) [1, 2, 3] [[1, 2, 3], [], [4, 5]]).2.2.2.2.2
     (by decide)⟩

/-! ## The echo handler -/

theorem readAllLoop_eq (fail : GoError) (cs : List (List UInt8)) :
    ∀ acc : List UInt8, readAllLoop fail cs acc = (acc ++ cs.flatten, fail) := by
  induction cs with
  | nil => intro acc; simp [readAllLoop]
  | cons c cs ih => intro acc; simp [readAllLoop, ih]

theorem readAll_eq (b : ReqBody) : ReadAll b = (b.chunks.flatten, b.fail) := by
  simp [ReadAll, readAllLoop_eq]

/-- C7: `ioutil.ReadAll` gives the concatenation of the chunks the request
body delivers, and given a fresh response writer, if the request body is read
to its end without error and the write succeeds, `echoHandler` leaves exactly
the bytes of the request body as the response body, with status 200 OK; a
response with status 500 arises only when reading the body or writing it back
failed; and when reading fails the status is 500 and (on a working
connection) the body is the error text followed by a newline. -/
theorem echoHandler_echoes (w : ResponseWriter) (r : Request)
    (hfresh : w.wroteHeader = false ∧ w.body = []) :
    ReadAll r.Body = (r.Body.chunks.flatten, r.Body.fail) ∧
    (r.Body.fail = none → (w.Write r.Body.chunks.flatten).1.2 = none →
      (echoHandler w r).body = r.Body.chunks.flatten ∧
      (echoHandler w r).status = StatusOK ∧ (echoHandler w r).wroteHeader = true) ∧
    ((echoHandler w r).status = StatusInternalServerError →
      r.Body.fail ≠ none ∨ (w.Write r.Body.chunks.flatten).1.2 ≠ none) ∧
    (∀ e : String, r.Body.fail = some e →
      (echoHandler w r).status = StatusInternalServerError ∧
      (w.fault = none → (echoHandler w r).body = (e ++ "\n").toUTF8.data.toList)) := by
  obtain ⟨wh, st, body, ce⟩ := w
  obtain ⟨⟨chunks, fail⟩⟩ := r
  obtain ⟨h1, h2⟩ := hfresh
  simp only at h1 h2
  subst h1
  subst h2
  refine ⟨readAll_eq _, ?_⟩
  simp only [echoHandler, readAll_eq]
  generalize chunks.flatten = data
  cases fail with
  | none =>
    cases ce with
    | none =>
      simp [ResponseWriter.Write, ResponseWriter.WriteHeader, httpError, StatusOK,
        StatusInternalServerError]
    | some ne =>
      obtain ⟨n, e⟩ := ne
      by_cases hle : data.length ≤ n
      · simp [ResponseWriter.Write, ResponseWriter.WriteHeader, httpError, StatusOK,
          StatusInternalServerError, hle]
      · simp [ResponseWriter.Write, ResponseWriter.WriteHeader, httpError, StatusOK,
          StatusInternalServerError, hle]
  | some err =>
    cases ce with
    | none =>
      simp [ResponseWriter.Write, ResponseWriter.WriteHeader, httpError, StatusOK,
        StatusInternalServerError]
    | some ne =>
      obtain ⟨n, e⟩ := ne
      simp [ResponseWriter.Write, ResponseWriter.WriteHeader, httpError, StatusOK,
        StatusInternalServerError]
      split_ifs <;> rfl

theorem echoHandler_echoes_witness :
    ((newResponseWriter none).wroteHeader = false ∧ (newResponseWriter none).body = []) ∧
    (echoHandler (newResponseWriter none)
      ⟨⟨[[123, 34, 104, 101, 108, 108, 111], [], [34, 58, 32, 34, 119, 111, 114, 108],
        [100, 34, 125]], none⟩⟩).body = echoTestData ∧
    (echoHandler (newResponseWriter none)
      ⟨⟨[[123, 34, 104, 101, 108, 108, 111], [], [34, 58, 32, 34, 119, 111, 114, 108],
        [100, 34, 125]], none⟩⟩).status = 200 ∧
    (echoHandler (newResponseWriter none)
      ⟨⟨[[123, 34, 104, 101, 108, 108, 111], [], [34, 58, 32, 34, 119, 111, 114, 108],
        [100, 34, 125]], none⟩⟩).wroteHeader = true :=
  ⟨⟨rfl, rfl⟩,
   (echoHandler_echoes (newResponseWriter none)
      ⟨⟨[[123, 34, 104, 101, 108, 108, 111], [], [34, 58, 32, 34, 119, 111, 114, 108],
        [100, 34, 125]], none⟩⟩ ⟨rfl, rfl⟩).2.1 rfl rfl⟩

end Http2
